import Mathlib

set_option maxHeartbeats 1000000

/-!
Shallow embedding of `src/panel-plugin/i3wm-delegate.c` from
xfce4-i3-workspaces-plugin.

Workspace names and output names are byte strings, modelled as `List Nat`
(the plugin never looks at a NUL byte inside a name).  The C `long` of the
LP64 target is 64-bit and glib's `gint` is 32-bit; the implicit
`long -> gint` truncation in `workspace_name_cmp`'s numeric branch is
modelled explicitly by `toGint`.  Handlers that in C dereference an
uninitialized or NULL pointer (undefined behaviour) return `none`.
-/

/-- Byte string of an ASCII string literal: the model of a C string. -/
def str (s : String) : List Nat := s.data.map Char.toNat

def LONG_MAX : Int := 9223372036854775807

def LONG_MIN : Int := -9223372036854775808

/-- C `isspace` in the C locale, as consulted by `strtol`. -/
def isSpaceB (c : Nat) : Bool := c == 32 || (9 ≤ c && c ≤ 13)

def isDigitB (c : Nat) : Bool := 48 ≤ c && c ≤ 57

/-- Value of a run of ASCII decimal digits. -/
def digitsVal (ds : List Nat) : Nat := ds.foldl (fun acc d => acc * 10 + (d - 48)) 0

/-- Base-10 `strtol`: skip whitespace, optional sign, maximal run of digits;
`none` when no digit is consumed (the `endptr == name` case of the C code);
out-of-range values clamp to `LONG_MIN`/`LONG_MAX` as glibc's `strtol` does. -/
def strtolDec (s : List Nat) : Option Int :=
  let t := s.dropWhile isSpaceB
  let sp : Int × List Nat :=
    match t with
    | 43 :: r => (1, r)
    | 45 :: r => (-1, r)
    | r => (1, r)
  let ds := sp.2.takeWhile isDigitB
  if ds = [] then none
  else
    let v : Int := sp.1 * (digitsVal ds : Int)
    some (if v < LONG_MIN then LONG_MIN else if LONG_MAX < v then LONG_MAX else v)

/-- `ws_name_to_number` (i3wm-delegate.c:358-371): parse the name with
`strtol`; `-1` when the result is `LONG_MIN`/`LONG_MAX`, negative, or no
digit was consumed. -/
def ws_name_to_number (name : List Nat) : Int :=
  match strtolDec name with
  | none => -1
  | some v => if v = LONG_MIN ∨ v = LONG_MAX ∨ v < 0 then -1 else v

/-- Truncation of a C `long` value to `gint` (32-bit two's complement),
performed implicitly by `result = nb - na` in `workspace_name_cmp`. -/
def toGint (x : Int) : Int := (x + 2147483648) % 4294967296 - 2147483648

/-- Sign-faithful model of C `strcmp` on NUL-free byte strings (the sign is
all the plugin ever uses). -/
def strcmp : List Nat → List Nat → Int
  | [], [] => 0
  | [], _ :: _ => -1
  | _ :: _, [] => 1
  | a :: as, b :: bs => if a < b then -1 else if b < a then 1 else strcmp as bs

/-- `workspace_name_cmp` (i3wm-delegate.c:383-405).  The last branch assigns
the `long` difference `nb - na` to the `gint` result, hence `toGint`. -/
def workspace_name_cmp (a b : List Nat) : Int :=
  let na := ws_name_to_number a
  let nb := ws_name_to_number b
  if na = -1 ∨ nb = -1 then
    if na = -1 ∧ nb = -1 then strcmp b a
    else if na = -1 then -1 else 1
  else toGint (nb - na)

/-- `i3ipcWorkspaceReply`: one snapshot entry delivered by
`i3ipc_connection_get_workspaces`. -/
structure i3ipcWorkspaceReply where
  num : Int
  name : List Nat
  focused : Bool
  urgent : Bool
  output : List Nat
deriving DecidableEq

/-- `i3workspace` (i3wm-delegate.h): one Mirror Store record. -/
structure i3workspace where
  num : Int
  name : List Nat
  focused : Bool
  urgent : Bool
  output : List Nat
deriving DecidableEq

/-- `create_workspace` (i3wm-delegate.c:320-332). -/
def create_workspace (r : i3ipcWorkspaceReply) : i3workspace :=
  { num := r.num, name := r.name, focused := r.focused, urgent := r.urgent,
    output := r.output }

/-- `i3wm_workspace_cmp` (i3wm-delegate.c:163-167). -/
def i3wm_workspace_cmp (a b : i3workspace) : Int :=
  workspace_name_cmp a.name b.name

/-- The `<= 0` test glib's `g_slist_sort`/`g_slist_insert_sorted` make on the
supplied `GCompareFunc` to put an element first. -/
def wLe (a b : i3workspace) : Bool := i3wm_workspace_cmp a b ≤ 0

/-- The same `<= 0` test on bare names, for sorting a name list. -/
def nameLe (a b : List Nat) : Bool := workspace_name_cmp a b ≤ 0

/-- glib `g_slist_insert_sorted`: insert before the first element `y` with
`func x y <= 0`, else append at the end. -/
def insertSorted (le : α → α → Bool) (x : α) : List α → List α
  | [] => [x]
  | y :: ys => if le x y then x :: y :: ys else y :: insertSorted le x ys

/-- glib `g_slist_sort_merge`: take from the left list while
`func l1 l2 <= 0`.  Fuelled so the definition is structural; the fuel is
never exhausted when it is at least the combined length. -/
def mergeF (le : α → α → Bool) : Nat → List α → List α → List α
  | 0, xs, ys => xs ++ ys
  | _ + 1, [], ys => ys
  | _ + 1, x :: xs, [] => x :: xs
  | f + 1, x :: xs, y :: ys =>
    if le x y then x :: mergeF le f xs (y :: ys) else y :: mergeF le f (x :: xs) ys

/-- glib `g_slist_sort`: split at the midpoint (first half of length
`n / 2`, exactly glib's two-pointer walk), sort both halves, merge.  The
fuel `l.length` strictly dominates the recursion depth. -/
def msortF (le : α → α → Bool) : Nat → List α → List α
  | 0, l => l
  | _ + 1, [] => []
  | _ + 1, [a] => [a]
  | f + 1, a :: b :: l =>
    mergeF le (a :: b :: l).length
      (msortF le f ((a :: b :: l).take ((a :: b :: l).length / 2)))
      (msortF le f ((a :: b :: l).drop ((a :: b :: l).length / 2)))

def gSListSort (le : α → α → Bool) (l : List α) : List α := msortF le l.length l

/-- Removal of the node at a given position: `g_slist_remove(list, data)`
removes the first node whose data pointer equals `data`, and every removal in
the delegate passes a pointer previously located by a scan, so exactly the
scanned node goes. -/
def removeAt : Nat → List α → List α
  | _, [] => []
  | 0, _ :: xs => xs
  | i + 1, x :: xs => x :: removeAt i xs

/-- In-place mutation of the record held by the node at a given position. -/
def modifyIdx (f : α → α) : Nat → List α → List α
  | _, [] => []
  | 0, x :: xs => f x :: xs
  | i + 1, x :: xs => x :: modifyIdx f i xs

/-- `g_slist_find_custom`: position and content of the first node whose data
satisfies the compare-to-zero predicate. -/
def findWithIdx (p : α → Bool) : List α → Option (Nat × α)
  | [] => none
  | x :: xs => if p x then some (0, x) else (findWithIdx p xs).map fun q => (q.1 + 1, q.2)

/-- `g_slist_find_custom(wlist, n, workspace_str_cmp)`: first Mirror Store
node whose name compares to zero against `n` under `workspace_name_cmp`. -/
def wfindIdx (n : List Nat) (store : List i3workspace) : Option (Nat × i3workspace) :=
  findWithIdx (fun w => workspace_name_cmp w.name n == 0) store

/-- `g_slist_find_custom(wlist, n, workspace_reply_str_cmp)` over a snapshot:
first snapshot entry whose name compares to zero against `n`. -/
def rfindIdx (n : List Nat) (rs : List i3ipcWorkspaceReply) :
    Option (Nat × i3ipcWorkspaceReply) :=
  findWithIdx (fun r => workspace_name_cmp r.name n == 0) rs

/-- The observer callback kinds the delegate can raise from its handlers. -/
inductive EvKind where
  | created
  | destroyed
  | blurred
  | focused
  | urgent
deriving DecidableEq

/-- One `invoke_callback` call: the kind and the workspace record passed. -/
abbrev Ev := EvKind × i3workspace

/-- `init_workspaces` (i3wm-delegate.c:456-479): translate every snapshot
entry (prepend then reverse keeps snapshot order), then `g_slist_sort` with
`i3wm_workspace_cmp`. -/
def init_workspaces (rs : List i3ipcWorkspaceReply) : List i3workspace :=
  gSListSort wLe (rs.map create_workspace)

/-- The handlers call `i3ipc_connection_get_workspaces` with a NULL
`GError**` (i3wm-delegate.c:579,610,644,695) and never test for failure;
a failed fetch returns NULL, which the C code cannot distinguish from an
empty workspace list. -/
def fetchedList (res : Option (List i3ipcWorkspaceReply)) : List i3ipcWorkspaceReply :=
  res.getD []

/-- `on_focus_workspace` (i3wm-delegate.c:550-568).  The result pairs the new
store with the `invoke_callback` calls made, in order; `none` models the NULL
dereference when the current name has no store node (line 565). -/
def on_focus_workspace (store : List i3workspace) (old cur : List Nat) :
    Option (List i3workspace × List Ev) :=
  let s1 : List i3workspace × List Ev :=
    match wfindIdx old store with
    | some (i, w) =>
      (modifyIdx (fun x => { x with focused := false }) i store,
        [(EvKind.blurred, { w with focused := false })])
    | none => (store, [])
  match wfindIdx cur s1.1 with
  | none => none
  | some (j, w) =>
    some (modifyIdx (fun x => { x with focused := true }) j s1.1,
      s1.2 ++ [(EvKind.focused, { w with focused := true })])

/-- The scan loop of `on_init_workspace` (i3wm-delegate.c:585-591): `wreply`
ends as the first snapshot entry whose name is not in the store, or as the
last snapshot entry when every name is present; it stays uninitialized
(`none`, undefined behaviour downstream) when the snapshot is empty. -/
def initScan (store : List i3workspace) :
    List i3ipcWorkspaceReply → Option i3ipcWorkspaceReply
  | [] => none
  | [r] => some r
  | r :: r2 :: rs =>
    if (wfindIdx r.name store).isSome then initScan store (r2 :: rs) else some r

/-- `on_init_workspace` (i3wm-delegate.c:576-599): build a workspace from the
scanned reply, `g_slist_insert_sorted` it, raise `created`. -/
def on_init_workspace (store : List i3workspace) (rs : List i3ipcWorkspaceReply) :
    Option (List i3workspace × List Ev) :=
  (initScan store rs).map fun r =>
    let w := create_workspace r
    (insertSorted wLe w store, [(EvKind.created, w)])

/-- The scan loop of `on_empty_workspace` (i3wm-delegate.c:617-624) combined
with the removal: the removed node is the first store node whose name is not
in the snapshot, or the last store node when every name is present; for an
empty store the C `workspace` variable stays uninitialized (`none`). -/
def emptyScan (rs : List i3ipcWorkspaceReply) :
    List i3workspace → Option (List i3workspace × i3workspace)
  | [] => none
  | [w] => some ([], w)
  | w :: w2 :: ws =>
    if (rfindIdx w.name rs).isSome then
      (emptyScan rs (w2 :: ws)).map fun q => (w :: q.1, q.2)
    else some (w2 :: ws, w)

/-- `on_empty_workspace` (i3wm-delegate.c:607-631): remove the scanned node,
raise `destroyed` with it, then free it. -/
def on_empty_workspace (store : List i3workspace) (rs : List i3ipcWorkspaceReply) :
    Option (List i3workspace × List Ev) :=
  (emptyScan rs store).map fun q => (q.1, [(EvKind.destroyed, q.2)])

/-- The scan loop of `on_urgent_workspace` (i3wm-delegate.c:653-661): walk the
snapshot; for each entry look up the same-named store node (NULL dereference,
`none`, if absent) and stop at the first urgent-flag mismatch; with no
mismatch the last pair is retained; an empty snapshot leaves both C variables
uninitialized (`none`). -/
def urgentScan (store : List i3workspace) :
    List i3ipcWorkspaceReply → Option (i3ipcWorkspaceReply × Nat × i3workspace)
  | [] => none
  | [r] => (wfindIdx r.name store).map fun q => (r, q.1, q.2)
  | r :: r2 :: rs =>
    match wfindIdx r.name store with
    | none => none
    | some (i, w) =>
      if w.urgent != r.urgent then some (r, i, w) else urgentScan store (r2 :: rs)

/-- `on_urgent_workspace` (i3wm-delegate.c:641-667): copy the snapshot's
urgent flag into the scanned store node and raise `urgent` with it --
unconditionally, also when the scan found no mismatch. -/
def on_urgent_workspace (store : List i3workspace) (rs : List i3ipcWorkspaceReply) :
    Option (List i3workspace × List Ev) :=
  (urgentScan store rs).map fun q =>
    (modifyIdx (fun x => { x with urgent := q.1.urgent }) q.2.1 store,
      [(EvKind.urgent, { q.2.2 with urgent := q.1.urgent })])

/-- The scan loop of `on_move_workspace` (i3wm-delegate.c:702-710): walk the
snapshot; for each entry look up the same-named store node (NULL dereference,
`none`, if absent) and stop at the first output mismatch; with no mismatch
the last pair is retained; an empty snapshot leaves the C variables
uninitialized (`none`). -/
def moveScan (store : List i3workspace) :
    List i3ipcWorkspaceReply → Option (i3ipcWorkspaceReply × Nat × i3workspace)
  | [] => none
  | [r] => (wfindIdx r.name store).map fun q => (r, q.1, q.2)
  | r :: r2 :: rs =>
    match wfindIdx r.name store with
    | none => none
    | some (i, w) =>
      if w.output != r.output then some (r, i, w) else moveScan store (r2 :: rs)

/-- `on_move_workspace` (i3wm-delegate.c:692-723): remove the scanned store
node (raise `destroyed`), then build a workspace from the snapshot entry,
`g_slist_insert_sorted` it and raise `created`. -/
def on_move_workspace (store : List i3workspace) (rs : List i3ipcWorkspaceReply) :
    Option (List i3workspace × List Ev) :=
  (moveScan store rs).map fun q =>
    let w := create_workspace q.1
    (insertSorted wLe w (removeAt q.2.1 store),
      [(EvKind.destroyed, q.2.2), (EvKind.created, w)])

/-- `i3wmCallback` (i3wm-delegate.h): a function pointer plus the opaque user
data stored with it.  Pointers are opaque tokens; `none` is NULL. -/
structure i3wmCallback where
  function : Option Nat
  data : Option Nat
deriving DecidableEq

/-- The callback slots of `i3windowManager` relevant to observer dispatch. -/
structure i3wmCallbackSlots where
  on_workspace_created : i3wmCallback
  on_workspace_destroyed : i3wmCallback
  on_workspace_blurred : i3wmCallback
  on_workspace_focused : i3wmCallback
  on_workspace_urgent : i3wmCallback
  on_workspace_renamed : i3wmCallback
deriving DecidableEq

/-- The slot state `i3wm_construct` leaves behind (i3wm-delegate.c:86,
101-106): `g_new0` zeroes everything and the function pointers are set to
NULL again explicitly. -/
def constructSlots : i3wmCallbackSlots :=
  { on_workspace_created := ⟨none, none⟩
    on_workspace_destroyed := ⟨none, none⟩
    on_workspace_blurred := ⟨none, none⟩
    on_workspace_focused := ⟨none, none⟩
    on_workspace_urgent := ⟨none, none⟩
    on_workspace_renamed := ⟨none, none⟩ }

/-- `i3wm_set_on_workspace_blurred` (i3wm-delegate.c:207-212): stores the
function pointer in the blurred slot but the user data in the focused slot
(line 211 writes `on_workspace_focused.data`). -/
def i3wm_set_on_workspace_blurred (s : i3wmCallbackSlots)
    (callback data : Option Nat) : i3wmCallbackSlots :=
  { s with
    on_workspace_blurred := ⟨callback, s.on_workspace_blurred.data⟩
    on_workspace_focused := ⟨s.on_workspace_focused.function, data⟩ }

/-- `i3wm_set_on_workspace_focused` (i3wm-delegate.c:222-227): stores the
function pointer in the focused slot but the user data in the blurred slot
(line 226 writes `on_workspace_blurred.data`). -/
def i3wm_set_on_workspace_focused (s : i3wmCallbackSlots)
    (callback data : Option Nat) : i3wmCallbackSlots :=
  { s with
    on_workspace_focused := ⟨callback, s.on_workspace_focused.data⟩
    on_workspace_blurred := ⟨s.on_workspace_blurred.function, data⟩ }

/-- `i3wm_set_on_workspace_created` (i3wm-delegate.c:177-182). -/
def i3wm_set_on_workspace_created (s : i3wmCallbackSlots)
    (callback data : Option Nat) : i3wmCallbackSlots :=
  { s with on_workspace_created := ⟨callback, data⟩ }

/-- `i3wm_set_on_workspace_urgent` (i3wm-delegate.c:237-242). -/
def i3wm_set_on_workspace_urgent (s : i3wmCallbackSlots)
    (callback data : Option Nat) : i3wmCallbackSlots :=
  { s with on_workspace_urgent := ⟨callback, data⟩ }

/-- `invoke_callback` (i3wm-delegate.c:513-520): when a function is
registered it is called with the workspace and the slot's stored data; the
result is the argument pair actually delivered, `none` when the slot is
empty (a no-op in C). -/
def invoke_callback (cb : i3wmCallback) (w : i3workspace) :
    Option (i3workspace × Option Nat) :=
  cb.function.map fun _ => (w, cb.data)

/-- Names whose numeric classification stays below `2^31`, so the comparator's
`gint` truncation is exact on differences. -/
def SmallN (n : List Nat) : Prop := ws_name_to_number n < 2147483648

instance (n : List Nat) : Decidable (SmallN n) :=
  inferInstanceAs (Decidable (ws_name_to_number n < 2147483648))

/-- The Mirror Store operations the sort invariant quantifies over: an
order-preserving insert (`g_slist_insert_sorted`, as in `on_init_workspace`
and `on_move_workspace`) or the removal of the node at a position
(`g_slist_remove` of a scanned node, as in `on_empty_workspace` and
`on_move_workspace`). -/
inductive StoreOp where
  | ins : i3workspace → StoreOp
  | del : Nat → StoreOp
deriving DecidableEq

def applyOp (s : List i3workspace) : StoreOp → List i3workspace
  | StoreOp.ins w => insertSorted wLe w s
  | StoreOp.del i => removeAt i s

/-- Smallness of the name an operation inserts. -/
def opSmall : StoreOp → Prop
  | StoreOp.ins w => SmallN w.name
  | StoreOp.del _ => True

instance : DecidablePred opSmall := fun op =>
  match op with
  | StoreOp.ins w => inferInstanceAs (Decidable (SmallN w.name))
  | StoreOp.del _ => inferInstanceAs (Decidable True)

example : str "10" = [49, 48] := by decide

example : ws_name_to_number (str "10") = 10 := by decide

example : ws_name_to_number (str "a") = -1 := by decide

example : ws_name_to_number (str "01") = 1 := by decide

example : workspace_name_cmp (str "1") (str "a") = 1 := by decide

example : workspace_name_cmp (str "2") (str "10") = 8 := by decide

example :
    gSListSort nameLe [str "1", str "2", str "10", str "a", str "b"] =
      [str "b", str "a", str "10", str "2", str "1"] := by decide

/-! Helper lemmas about the comparator. -/

theorem strcmp_antisymm : ∀ a b : List Nat, strcmp a b = -strcmp b a := by
  intro a
  induction a with
  | nil => intro b; cases b <;> simp [strcmp]
  | cons x as ih =>
    intro b
    cases b with
    | nil => simp [strcmp]
    | cons y bs =>
      simp only [strcmp]
      rcases Nat.lt_trichotomy x y with h | h | h
      · rw [if_pos h, if_neg (Nat.lt_asymm h), if_pos h]
      · subst h
        simp [Nat.lt_irrefl, ih bs]
      · rw [if_neg (Nat.lt_asymm h), if_pos h, if_pos h]
        norm_num

theorem strcmp_eq_zero_iff : ∀ a b : List Nat, strcmp a b = 0 ↔ a = b := by
  intro a
  induction a with
  | nil => intro b; cases b <;> simp [strcmp]
  | cons x as ih =>
    intro b
    cases b with
    | nil => simp [strcmp]
    | cons y bs =>
      simp only [strcmp]
      rcases Nat.lt_trichotomy x y with h | h | h
      · rw [if_pos h]
        constructor
        · intro hc; exact absurd hc (by norm_num)
        · rintro ⟨rfl, rfl⟩; exact absurd h (Nat.lt_irrefl x)
      · subst h
        simp [Nat.lt_irrefl, ih bs]
      · rw [if_neg (Nat.lt_asymm h), if_pos h]
        constructor
        · intro hc; exact absurd hc (by norm_num)
        · rintro ⟨rfl, rfl⟩; exact absurd h (Nat.lt_irrefl x)

theorem strcmp_le_trans :
    ∀ a b c : List Nat, strcmp a b ≤ 0 → strcmp b c ≤ 0 → strcmp a c ≤ 0 := by
  intro a
  induction a with
  | nil => intro b c _ _; cases c <;> simp [strcmp]
  | cons x as ih =>
    intro b c hab hbc
    cases b with
    | nil => simp [strcmp] at hab
    | cons y bs =>
      cases c with
      | nil => simp [strcmp] at hbc
      | cons z cs =>
        simp only [strcmp] at hab hbc ⊢
        rcases Nat.lt_trichotomy x y with h1 | h1 | h1
        · rcases Nat.lt_trichotomy y z with h2 | h2 | h2
          · rw [if_pos (Nat.lt_trans h1 h2)]; norm_num
          · subst h2; rw [if_pos h1]; norm_num
          · rw [if_neg (Nat.lt_asymm h2), if_pos h2] at hbc; norm_num at hbc
        · subst h1
          rw [if_neg (Nat.lt_irrefl x)] at hab
          rw [if_neg (Nat.lt_irrefl x)] at hab
          rcases Nat.lt_trichotomy x z with h2 | h2 | h2
          · rw [if_pos h2]; norm_num
          · subst h2
            rw [if_neg (Nat.lt_irrefl x), if_neg (Nat.lt_irrefl x)] at hbc ⊢
            exact ih bs cs hab hbc
          · rw [if_neg (Nat.lt_asymm h2), if_pos h2] at hbc; norm_num at hbc
        · rw [if_neg (Nat.lt_asymm h1), if_pos h1] at hab; norm_num at hab

theorem toGint_eq_zero_iff (x : Int) : toGint x = 0 ↔ x % 4294967296 = 0 := by
  unfold toGint
  omega

theorem toGint_pos_flip (x : Int) : 0 < toGint x → toGint (-x) < 0 := by
  unfold toGint
  omega

theorem toGint_small (x : Int) (h1 : -2147483648 ≤ x) (h2 : x < 2147483648) :
    toGint x = x := by
  unfold toGint
  omega

theorem strtolDec_bounds {n : List Nat} {v : Int} (h : strtolDec n = some v) :
    -9223372036854775808 ≤ v ∧ v ≤ 9223372036854775807 := by
  unfold strtolDec at h
  simp only at h
  split at h
  · exact Option.noConfusion h
  · have h2 := Option.some.inj h
    unfold LONG_MIN LONG_MAX at h2
    split at h2
    · omega
    · split at h2 <;> omega

theorem wsn_cases (n : List Nat) :
    ws_name_to_number n = -1 ∨
      (0 ≤ ws_name_to_number n ∧ ws_name_to_number n < LONG_MAX) := by
  unfold ws_name_to_number
  cases h : strtolDec n with
  | none => exact Or.inl rfl
  | some v =>
    have hb := strtolDec_bounds h
    simp only
    by_cases hv : v = LONG_MIN ∨ v = LONG_MAX ∨ v < 0
    · rw [if_pos hv]
      exact Or.inl rfl
    · rw [if_neg hv]
      push_neg at hv
      right
      simp only [LONG_MIN, LONG_MAX] at hv ⊢
      omega

theorem cmp_self (a : List Nat) : workspace_name_cmp a a = 0 := by
  unfold workspace_name_cmp
  by_cases h : ws_name_to_number a = -1
  · simp [h, strcmp_eq_zero_iff]
  · simp [h, toGint]

theorem cmp_pos_flip (a b : List Nat) :
    0 < workspace_name_cmp a b → workspace_name_cmp b a < 0 := by
  intro h
  unfold workspace_name_cmp at h ⊢
  simp only at h ⊢
  by_cases ha : ws_name_to_number a = -1 <;>
    by_cases hb : ws_name_to_number b = -1
  · simp only [ha, hb] at h ⊢
    norm_num at h ⊢
    rw [strcmp_antisymm a b]
    omega
  · simp [ha, hb] at h
  · simp [ha, hb]
  · simp only [ha, hb] at h ⊢
    norm_num at h ⊢
    have h2 := toGint_pos_flip _ h
    rwa [neg_sub] at h2

theorem cmp_le_trans_small {a b c : List Nat}
    (hA : SmallN a) (hB : SmallN b) (hC : SmallN c)
    (hab : workspace_name_cmp a b ≤ 0) (hbc : workspace_name_cmp b c ≤ 0) :
    workspace_name_cmp a c ≤ 0 := by
  unfold SmallN at hA hB hC
  unfold workspace_name_cmp at hab hbc ⊢
  simp only at hab hbc ⊢
  rcases wsn_cases a with ha | ha <;> rcases wsn_cases b with hb | hb <;>
    rcases wsn_cases c with hc | hc
  · simp only [ha, hb, hc] at hab hbc ⊢
    norm_num at hab hbc ⊢
    exact strcmp_le_trans c b a hbc hab
  · have hc' : ws_name_to_number c ≠ -1 := by omega
    simp [ha, hc']
  · have hb' : ws_name_to_number b ≠ -1 := by omega
    simp [hb', hc] at hbc
  · have hb' : ws_name_to_number b ≠ -1 := by omega
    have hc' : ws_name_to_number c ≠ -1 := by omega
    simp [ha, hc']
  · have ha' : ws_name_to_number a ≠ -1 := by omega
    simp [ha', hb] at hab
  · have ha' : ws_name_to_number a ≠ -1 := by omega
    simp [ha', hb] at hab
  · have hb' : ws_name_to_number b ≠ -1 := by omega
    simp [hb', hc] at hbc
  · have ha' : ws_name_to_number a ≠ -1 := by omega
    have hb' : ws_name_to_number b ≠ -1 := by omega
    have hc' : ws_name_to_number c ≠ -1 := by omega
    simp only [ha', hb', hc'] at hab hbc ⊢
    norm_num at hab hbc ⊢
    rw [toGint_small _ (by omega) (by omega)] at hab hbc ⊢
    omega

/-! Generic lemmas about the glib list operations. -/

theorem length_mergeF (le : α → α → Bool) :
    ∀ (f : Nat) (xs ys : List α),
      (mergeF le f xs ys).length = xs.length + ys.length := by
  intro f
  induction f with
  | zero => intro xs ys; simp [mergeF]
  | succ f ih =>
    intro xs ys
    cases xs with
    | nil => simp [mergeF]
    | cons x xs' =>
      cases ys with
      | nil => simp [mergeF]
      | cons y ys' =>
        simp only [mergeF]
        split
        · simp only [List.length_cons, ih]
          omega
        · simp only [List.length_cons, ih]
          omega

theorem mem_mergeF (le : α → α → Bool) :
    ∀ (f : Nat) (xs ys : List α) (x : α),
      x ∈ mergeF le f xs ys → x ∈ xs ∨ x ∈ ys := by
  intro f
  induction f with
  | zero => intro xs ys x h; exact List.mem_append.mp h
  | succ f ih =>
    intro xs ys x h
    cases xs with
    | nil => exact Or.inr (by simpa [mergeF] using h)
    | cons a xs' =>
      cases ys with
      | nil => exact Or.inl (by simpa [mergeF] using h)
      | cons b ys' =>
        simp only [mergeF] at h
        split at h
        · rcases List.mem_cons.mp h with h1 | h1
          · exact Or.inl (by simp [h1])
          · rcases ih xs' (b :: ys') x h1 with h2 | h2
            · exact Or.inl (List.mem_cons_of_mem a h2)
            · exact Or.inr h2
        · rcases List.mem_cons.mp h with h1 | h1
          · exact Or.inr (by simp [h1])
          · rcases ih (a :: xs') ys' x h1 with h2 | h2
            · exact Or.inl h2
            · exact Or.inr (List.mem_cons_of_mem b h2)

theorem mergeF_head (le : α → α → Bool) (f : Nat) (xs ys : List α) :
    (mergeF le f xs ys).head? = xs.head? ∨ (mergeF le f xs ys).head? = ys.head? := by
  cases f with
  | zero =>
    cases xs with
    | nil => right; simp [mergeF]
    | cons a xs' => left; simp [mergeF]
  | succ f =>
    cases xs with
    | nil => right; simp [mergeF]
    | cons a xs' =>
      cases ys with
      | nil => left; simp [mergeF]
      | cons b ys' =>
        simp only [mergeF]
        split
        · left; rfl
        · right; rfl

theorem chain'_mergeF (le : α → α → Bool)
    (hflip : ∀ a b, le a b = false → le b a = true) :
    ∀ (f : Nat) (xs ys : List α), xs.length + ys.length ≤ f →
      List.Chain' (fun a b => le a b = true) xs →
      List.Chain' (fun a b => le a b = true) ys →
      List.Chain' (fun a b => le a b = true) (mergeF le f xs ys) := by
  intro f
  induction f with
  | zero =>
    intro xs ys hlen hx hy
    cases xs with
    | nil =>
      cases ys with
      | nil => simp [mergeF]
      | cons b ys' => simp at hlen
    | cons a xs' => simp at hlen
  | succ f ih =>
    intro xs ys hlen hx hy
    cases xs with
    | nil => simpa [mergeF] using hy
    | cons x xs' =>
      cases ys with
      | nil => simpa [mergeF] using hx
      | cons y ys' =>
        simp only [mergeF]
        split
        · rename_i hle
          rw [List.chain'_cons']
          refine ⟨?_, ih xs' (y :: ys')
            (by simp only [List.length_cons] at hlen ⊢; omega) hx.tail hy⟩
          intro z hz
          rcases mergeF_head le f xs' (y :: ys') with he | he
          · rw [he] at hz
            exact (List.chain'_cons'.mp hx).1 z hz
          · rw [he] at hz
            simp at hz
            subst hz
            exact hle
        · rename_i hle
          rw [List.chain'_cons']
          refine ⟨?_, ih (x :: xs') ys'
            (by simp only [List.length_cons] at hlen ⊢; omega) hx hy.tail⟩
          intro z hz
          rcases mergeF_head le f (x :: xs') ys' with he | he
          · rw [he] at hz
            simp at hz
            subst hz
            exact hflip x y (by simpa using hle)
          · rw [he] at hz
            exact (List.chain'_cons'.mp hy).1 z hz

theorem length_msortF (le : α → α → Bool) :
    ∀ (f : Nat) (l : List α), (msortF le f l).length = l.length := by
  intro f
  induction f with
  | zero => intro l; rfl
  | succ f ih =>
    intro l
    cases l with
    | nil => rfl
    | cons a t =>
      cases t with
      | nil => rfl
      | cons b t' =>
        simp only [msortF]
        rw [length_mergeF le, ih, ih, List.length_take, List.length_drop]
        simp only [List.length_cons]
        omega

theorem mem_msortF (le : α → α → Bool) :
    ∀ (f : Nat) (l : List α) (x : α), x ∈ msortF le f l → x ∈ l := by
  intro f
  induction f with
  | zero => intro l x h; exact h
  | succ f ih =>
    intro l x h
    cases l with
    | nil => simpa [msortF] using h
    | cons a t =>
      cases t with
      | nil => simpa [msortF] using h
      | cons b t' =>
        simp only [msortF] at h
        rcases mem_mergeF le _ _ _ x h with h1 | h1
        · exact List.take_subset _ _ (ih _ x h1)
        · exact List.drop_subset _ _ (ih _ x h1)

theorem chain'_msortF (le : α → α → Bool)
    (hflip : ∀ a b, le a b = false → le b a = true) :
    ∀ (f : Nat) (l : List α), l.length ≤ f →
      List.Chain' (fun a b => le a b = true) (msortF le f l) := by
  intro f
  induction f with
  | zero =>
    intro l h
    have hl : l = [] := List.length_eq_zero.mp (Nat.le_zero.mp h)
    subst hl
    simp [msortF]
  | succ f ih =>
    intro l h
    cases l with
    | nil => simp [msortF]
    | cons a t =>
      cases t with
      | nil => simp [msortF]
      | cons b t' =>
        simp only [msortF]
        apply chain'_mergeF le hflip
        · rw [length_msortF le, length_msortF le, List.length_take, List.length_drop]
          simp only [List.length_cons]
          omega
        · exact ih _ (by rw [List.length_take]; simp only [List.length_cons] at h ⊢; omega)
        · exact ih _ (by rw [List.length_drop]; simp only [List.length_cons] at h ⊢; omega)

theorem mem_insertSorted (le : α → α → Bool) :
    ∀ (l : List α) (x w : α), x ∈ insertSorted le w l → x = w ∨ x ∈ l := by
  intro l
  induction l with
  | nil =>
    intro x w h
    simp only [insertSorted] at h
    exact Or.inl (by simpa using h)
  | cons y ys ih =>
    intro x w h
    simp only [insertSorted] at h
    split at h
    · rcases List.mem_cons.mp h with h1 | h1
      · exact Or.inl h1
      · exact Or.inr h1
    · rcases List.mem_cons.mp h with h1 | h1
      · exact Or.inr (by simp [h1])
      · rcases ih x w h1 with h2 | h2
        · exact Or.inl h2
        · exact Or.inr (List.mem_cons_of_mem y h2)

theorem insertSorted_head (le : α → α → Bool) (w : α) (l : List α) :
    (insertSorted le w l).head? = some w ∨ (insertSorted le w l).head? = l.head? := by
  cases l with
  | nil => left; rfl
  | cons y ys =>
    simp only [insertSorted]
    split
    · left; rfl
    · right; rfl

theorem chain'_insertSorted (le : α → α → Bool)
    (hflip : ∀ a b, le a b = false → le b a = true) :
    ∀ (l : List α) (w : α), List.Chain' (fun a b => le a b = true) l →
      List.Chain' (fun a b => le a b = true) (insertSorted le w l) := by
  intro l
  induction l with
  | nil => intro w _; simp [insertSorted]
  | cons y ys ih =>
    intro w hc
    simp only [insertSorted]
    split
    · rename_i hle
      exact List.chain'_cons.mpr ⟨hle, hc⟩
    · rename_i hle
      rw [List.chain'_cons']
      refine ⟨?_, ih w hc.tail⟩
      intro z hz
      rcases insertSorted_head le w ys with he | he
      · rw [he] at hz
        simp at hz
        subst hz
        exact hflip w y (by simpa using hle)
      · rw [he] at hz
        exact (List.chain'_cons'.mp hc).1 z hz

theorem mem_removeAt :
    ∀ (i : Nat) (l : List α) (x : α), x ∈ removeAt i l → x ∈ l := by
  intro i l
  induction l generalizing i with
  | nil => intro x h; simpa [removeAt] using h
  | cons y ys ih =>
    intro x h
    cases i with
    | zero => exact List.mem_cons_of_mem y (by simpa [removeAt] using h)
    | succ i' =>
      simp only [removeAt] at h
      rcases List.mem_cons.mp h with h1 | h1
      · simp [h1]
      · exact List.mem_cons_of_mem y (ih i' x h1)

theorem chain'_removeAt (le : α → α → Bool) {P : α → Prop}
    (htr : ∀ a b c, P a → P b → P c →
      le a b = true → le b c = true → le a c = true) :
    ∀ (l : List α) (i : Nat), (∀ x ∈ l, P x) →
      List.Chain' (fun a b => le a b = true) l →
      List.Chain' (fun a b => le a b = true) (removeAt i l) := by
  intro l
  induction l with
  | nil => intro i _ _; simp [removeAt]
  | cons y ys ih =>
    intro i hall hc
    cases i with
    | zero => simpa [removeAt] using hc.tail
    | succ i' =>
      simp only [removeAt]
      rw [List.chain'_cons']
      refine ⟨?_, ih i' (fun x hx => hall x (List.mem_cons_of_mem y hx)) hc.tail⟩
      intro u hu
      cases ys with
      | nil => simp [removeAt] at hu
      | cons z zs =>
        cases i' with
        | zero =>
          simp only [removeAt] at hu
          cases zs with
          | nil => simp at hu
          | cons u0 us =>
            simp at hu
            rw [← hu]
            exact htr y z u0 (hall y (by simp)) (hall z (by simp)) (hall u0 (by simp))
              (List.chain'_cons.mp hc).1
              (List.chain'_cons.mp (List.chain'_cons.mp hc).2).1
        | succ i'' =>
          simp only [removeAt] at hu
          simp at hu
          subst hu
          exact (List.chain'_cons.mp hc).1

theorem wLe_flip (a b : i3workspace) : wLe a b = false → wLe b a = true := by
  intro h
  have h1 : ¬ (i3wm_workspace_cmp a b ≤ 0) := by simpa [wLe] using h
  have h2 : workspace_name_cmp b.name a.name < 0 := by
    apply cmp_pos_flip
    unfold i3wm_workspace_cmp at h1
    omega
  simp only [wLe, i3wm_workspace_cmp, decide_eq_true_eq]
  omega

theorem wLe_trans_small (a b c : i3workspace)
    (hA : SmallN a.name) (hB : SmallN b.name) (hC : SmallN c.name)
    (hab : wLe a b = true) (hbc : wLe b c = true) : wLe a c = true := by
  simp only [wLe, i3wm_workspace_cmp, decide_eq_true_eq] at hab hbc ⊢
  exact cmp_le_trans_small hA hB hC hab hbc

theorem modifyIdx_findWithIdx (p : α → Bool) (f : α → α) :
    ∀ (l : List α) (k : Nat) (x : α),
      findWithIdx p l = some (k, x) → f x = x → modifyIdx f k l = l := by
  intro l
  induction l with
  | nil => intro k x h _; simp [findWithIdx] at h
  | cons y ys ih =>
    intro k x h hfx
    simp only [findWithIdx] at h
    split at h
    · simp only [Option.some.injEq, Prod.mk.injEq] at h
      obtain ⟨hk, hx⟩ := h
      subst hk
      subst hx
      simp [modifyIdx, hfx]
    · cases hq : findWithIdx p ys with
      | none => rw [hq] at h; simp at h
      | some q =>
        rw [hq] at h
        simp only [Option.map_some', Option.some.injEq, Prod.mk.injEq] at h
        obtain ⟨hk, hx⟩ := h
        subst hk
        subst hx
        simp only [modifyIdx]
        rw [ih q.1 q.2 hq hfx]

theorem findWithIdx_modifyIdx (p : α → Bool) (f : α → α)
    (hf : ∀ x, p (f x) = p x) :
    ∀ (l : List α) (i : Nat),
      findWithIdx p (modifyIdx f i l) =
        (findWithIdx p l).map fun q => (q.1, if q.1 = i then f q.2 else q.2) := by
  intro l
  induction l with
  | nil => intro i; cases i <;> rfl
  | cons x xs ih =>
    intro i
    cases i with
    | zero =>
      simp only [modifyIdx, findWithIdx, hf x]
      by_cases hp : p x
      · simp [hp]
      · simp only [hp, if_false, Bool.false_eq_true]
        cases hq : findWithIdx p xs with
        | none => rfl
        | some q => simp [hq]
    | succ i' =>
      simp only [modifyIdx, findWithIdx]
      by_cases hp : p x
      · simp [hp]
      · simp only [hp, if_false, Bool.false_eq_true, ih i']
        cases hq : findWithIdx p xs with
        | none => rfl
        | some q =>
          simp only [Option.map_some']
          by_cases hk : q.1 = i'
          · simp [hk]
          · simp [hk, fun h => hk (Nat.succ_injective h)]

theorem findWithIdx_insertSorted_self :
    ∀ (l : List i3workspace) (w : i3workspace),
      ∃ k, wfindIdx w.name (insertSorted wLe w l) = some (k, w) := by
  intro l
  induction l with
  | nil =>
    intro w
    refine ⟨0, ?_⟩
    simp [insertSorted, wfindIdx, findWithIdx, cmp_self]
  | cons y ys ih =>
    intro w
    by_cases hle : wLe w y = true
    · refine ⟨0, ?_⟩
      simp only [insertSorted, hle, if_true]
      simp [wfindIdx, findWithIdx, cmp_self]
    · have hle' : wLe w y = false := by simpa using hle
      have hgt : ¬ (i3wm_workspace_cmp w y ≤ 0) := by
        simpa [wLe] using hle'
      have hneg : workspace_name_cmp y.name w.name < 0 := by
        apply cmp_pos_flip
        unfold i3wm_workspace_cmp at hgt
        omega
      obtain ⟨k, hk⟩ := ih w
      refine ⟨k + 1, ?_⟩
      have hpy : (workspace_name_cmp y.name w.name == 0) = false := by
        simp only [beq_eq_false_iff_ne, ne_eq]
        omega
      simp only [insertSorted, hle', Bool.false_eq_true, if_false]
      simp only [wfindIdx, findWithIdx, hpy, Bool.false_eq_true, if_false]
      simp only [wfindIdx] at hk
      rw [hk]
      rfl

theorem initScan_all_found (store : List i3workspace) :
    ∀ (rs : List i3ipcWorkspaceReply) (r' : i3ipcWorkspaceReply),
      rs.getLast? = some r' →
      (∀ r ∈ rs, (wfindIdx r.name store).isSome = true) →
      initScan store rs = some r' := by
  intro rs
  induction rs with
  | nil => intro r' h _; simp at h
  | cons r rs' ih =>
    intro r' hlast hall
    cases rs' with
    | nil =>
      simp at hlast
      subst hlast
      rfl
    | cons r2 rs'' =>
      have hr := hall r (by simp)
      rw [List.getLast?_cons_cons] at hlast
      simp only [initScan, hr, if_true]
      exact ih r' hlast (fun x hx => hall x (List.mem_cons_of_mem r hx))

theorem emptyScan_cons (rs : List i3ipcWorkspaceReply) (w : i3workspace)
    (l : List i3workspace) (h : l ≠ []) :
    emptyScan rs (w :: l) =
      if (rfindIdx w.name rs).isSome then
        (emptyScan rs l).map fun q => (w :: q.1, q.2)
      else some (l, w) := by
  cases l with
  | nil => exact absurd rfl h
  | cons a t => rfl

theorem emptyScan_first_absent (rs : List i3ipcWorkspaceReply) :
    ∀ (pre : List i3workspace) (w : i3workspace) (post : List i3workspace),
      (∀ u ∈ pre, (rfindIdx u.name rs).isSome = true) →
      (rfindIdx w.name rs).isSome = false →
      emptyScan rs (pre ++ w :: post) = some (pre ++ post, w) := by
  intro pre
  induction pre with
  | nil =>
    intro w post _ habs
    cases post with
    | nil => rfl
    | cons p ps =>
      simp only [List.nil_append]
      rw [emptyScan_cons rs w (p :: ps) (by simp), habs]
      simp
  | cons u pre' ih =>
    intro w post hall habs
    have hu : (rfindIdx u.name rs).isSome = true := hall u (by simp)
    rw [List.cons_append,
      emptyScan_cons rs u (pre' ++ w :: post) (by simp), hu]
    simp only [if_true]
    rw [ih w post (fun x hx => hall x (List.mem_cons_of_mem u hx)) habs]
    rfl

theorem emptyScan_all_present (rs : List i3ipcWorkspaceReply) :
    ∀ (pre : List i3workspace) (w : i3workspace),
      (∀ u ∈ pre ++ [w], (rfindIdx u.name rs).isSome = true) →
      emptyScan rs (pre ++ [w]) = some (pre, w) := by
  intro pre
  induction pre with
  | nil => intro w _; rfl
  | cons u pre' ih =>
    intro w hall
    have hu : (rfindIdx u.name rs).isSome = true := hall u (by simp)
    rw [List.cons_append, emptyScan_cons rs u (pre' ++ [w]) (by simp), hu]
    simp only [if_true]
    rw [ih w (fun x hx => hall x (List.mem_cons_of_mem u hx))]
    rfl

theorem urgentScan_all_agree (store : List i3workspace) :
    ∀ (rs : List i3ipcWorkspaceReply) (r' : i3ipcWorkspaceReply),
      rs.getLast? = some r' →
      (∀ r ∈ rs, (wfindIdx r.name store).map (fun q => q.2.urgent) = some r.urgent) →
      ∃ i w, wfindIdx r'.name store = some (i, w) ∧
        urgentScan store rs = some (r', i, w) := by
  intro rs
  induction rs with
  | nil => intro r' h _; simp at h
  | cons r rs' ih =>
    intro r' hlast hall
    cases rs' with
    | nil =>
      simp at hlast
      subst hlast
      have hr := hall r (by simp)
      cases hq : wfindIdx r.name store with
      | none => rw [hq] at hr; simp at hr
      | some q =>
        obtain ⟨i, w⟩ := q
        refine ⟨i, w, rfl, ?_⟩
        simp only [urgentScan, hq, Option.map_some']
    | cons r2 rs'' =>
      have hr := hall r (by simp)
      rw [List.getLast?_cons_cons] at hlast
      cases hq : wfindIdx r.name store with
      | none => rw [hq] at hr; simp at hr
      | some q =>
        rw [hq] at hr
        simp only [Option.map_some', Option.some.injEq] at hr
        simp only [urgentScan, hq]
        rw [hr]
        simp only [bne_self_eq_false, if_false, Bool.false_eq_true]
        exact ih r' hlast (fun x hx => hall x (List.mem_cons_of_mem r hx))

theorem chain_fold_ops :
    ∀ (ops : List StoreOp) (s : List i3workspace),
      List.Chain' (fun a b => wLe a b = true) s →
      (∀ x ∈ s, SmallN x.name) →
      (∀ op ∈ ops, opSmall op) →
      List.Chain' (fun a b => wLe a b = true) (ops.foldl applyOp s) := by
  intro ops
  induction ops with
  | nil => intro s hc _ _; simpa using hc
  | cons op ops' ih =>
    intro s hc hs hops
    simp only [List.foldl_cons]
    cases op with
    | ins w =>
      apply ih
      · exact chain'_insertSorted wLe wLe_flip s w hc
      · intro x hx
        rcases mem_insertSorted wLe s x w hx with h | h
        · subst h
          exact hops (StoreOp.ins x) (by simp)
        · exact hs x h
      · intro o ho
        exact hops o (List.mem_cons_of_mem _ ho)
    | del i =>
      apply ih
      · exact chain'_removeAt wLe
          (P := fun x => SmallN x.name)
          (fun a b c ha hb hc' hab hbc => wLe_trans_small a b c ha hb hc' hab hbc)
          s i hs hc
      · intro x hx
        exact hs x (mem_removeAt i s x hx)
      · intro o ho
        exact hops o (List.mem_cons_of_mem _ ho)

/-! Claim theorems. -/

/-- Claim C1 (amended): the claim as frozen is refuted by
`c1_sort_example_refuted`.  What holds instead: for every Numeric/Named pair
the comparator returns `1` with the Numeric name as first argument and `-1`
with the Named name first, so glib's standard-convention sort places every
Named name before every Numeric name; sorting `["1","2","10","a","b"]` with
the comparator yields `["b","a","10","2","1"]`. -/
theorem c1_named_sorts_before_numeric :
    (∀ a b : List Nat, ws_name_to_number a ≠ -1 → ws_name_to_number b = -1 →
      workspace_name_cmp a b = 1 ∧ workspace_name_cmp b a = -1) ∧
    gSListSort nameLe [str "1", str "2", str "10", str "a", str "b"] =
      [str "b", str "a", str "10", str "2", str "1"] := by
  constructor
  · intro a b ha hb
    constructor
    · unfold workspace_name_cmp
      simp [ha, hb]
    · unfold workspace_name_cmp
      simp [ha, hb]
  · decide

/-- Witness for `c1_named_sorts_before_numeric` at the pair `"1"` / `"a"`. -/
theorem c1_named_sorts_before_numeric_w :
    workspace_name_cmp (str "1") (str "a") = 1 ∧
    workspace_name_cmp (str "a") (str "1") = -1 :=
  c1_named_sorts_before_numeric.1 (str "1") (str "a") (by decide) (by decide)

/-- Claim C1 counterexample: `workspace_name_cmp "1" "a"` is positive, so
glib's sort puts the Named name first, and the spec's example list does not
sort to `["10","2","1","b","a"]`. -/
theorem c1_sort_example_refuted :
    workspace_name_cmp (str "1") (str "a") = 1 ∧
    gSListSort nameLe [str "1", str "2", str "10", str "a", str "b"] ≠
      [str "10", str "2", str "1", str "b", str "a"] := by
  decide

/-- Claim C2 (code bug): the handlers pass a NULL `GError**` and never check
the fetch result, so a failed snapshot fetch (NULL, indistinguishable from an
empty list) is processed anyway: with store `["1"]`, `on_empty_workspace`
removes the workspace and raises `destroyed` instead of propagating the error
and leaving the store unchanged. -/
theorem c2_failed_fetch_not_propagated :
    on_empty_workspace [⟨1, str "1", true, false, str "eDP1"⟩] (fetchedList none) =
      some ([], [(EvKind.destroyed, ⟨1, str "1", true, false, str "eDP1"⟩)]) ∧
    [(EvKind.destroyed, (⟨1, str "1", true, false, str "eDP1"⟩ : i3workspace))] ≠
      ([] : List Ev) := by
  decide

/-- Claim C3 (amended): the claim as frozen is refuted by
`c3_distinct_names_compare_equal`.  What holds instead: the comparator
returns 0 exactly when both names classify Named and are string-equal, or
both classify Numeric and their parsed values are congruent modulo `2^32`
(in particular when they are equal, as for `"1"` and `"01"`); a
compare-to-zero lookup can therefore return a workspace whose name string
differs from the queried name. -/
theorem c3_cmp_zero_characterization :
    ∀ a b : List Nat,
      workspace_name_cmp a b = 0 ↔
        ((ws_name_to_number a = -1 ∧ ws_name_to_number b = -1 ∧ a = b) ∨
         (ws_name_to_number a ≠ -1 ∧ ws_name_to_number b ≠ -1 ∧
           (4294967296 : Int) ∣ (ws_name_to_number b - ws_name_to_number a))) := by
  intro a b
  unfold workspace_name_cmp
  simp only
  by_cases ha : ws_name_to_number a = -1 <;>
    by_cases hb : ws_name_to_number b = -1
  · norm_num [ha, hb]
    rw [strcmp_eq_zero_iff]
    exact ⟨fun h => h.symm, fun h => h.symm⟩
  · norm_num [ha, hb]
  · norm_num [ha, hb]
  · norm_num [ha, hb]
    rw [toGint_eq_zero_iff, Int.dvd_iff_emod_eq_zero]

/-- Claim C3 counterexample: the distinct names `"1"` and `"01"` compare
equal, and a compare-to-zero lookup for `"1"` returns the workspace named
`"01"`. -/
theorem c3_distinct_names_compare_equal :
    workspace_name_cmp (str "1") (str "01") = 0 ∧
    str "1" ≠ str "01" ∧
    wfindIdx (str "1") [⟨0, str "01", false, false, str "eDP1"⟩] =
      some (0, ⟨0, str "01", false, false, str "eDP1"⟩) ∧
    (⟨0, str "01", false, false, str "eDP1"⟩ : i3workspace).name ≠ str "1" := by
  decide

/-- Claim C7 (code bug): `i3wm_set_on_workspace_blurred` stores the supplied
user data in the focused slot (and `i3wm_set_on_workspace_focused` in the
blurred slot), so after registering the blurred callback with data `7` on a
freshly constructed delegate, a blurred invocation delivers NULL, not `7`,
and the `7` sits in the focused slot; symmetrically for focused. -/
theorem c7_user_data_slots_crossed :
    (i3wm_set_on_workspace_blurred constructSlots (some 1) (some 7)).on_workspace_blurred.data
        = none ∧
    (i3wm_set_on_workspace_blurred constructSlots (some 1) (some 7)).on_workspace_focused.data
        = some 7 ∧
    invoke_callback
        (i3wm_set_on_workspace_blurred constructSlots (some 1) (some 7)).on_workspace_blurred
        ⟨1, str "1", true, false, str "eDP1"⟩ =
      some (⟨1, str "1", true, false, str "eDP1"⟩, none) ∧
    (i3wm_set_on_workspace_focused constructSlots (some 2) (some 9)).on_workspace_focused.data
        = none ∧
    (i3wm_set_on_workspace_focused constructSlots (some 2) (some 9)).on_workspace_blurred.data
        = some 9 := by
  decide

theorem mem_of_getLast?_eq {l : List α} {a : α} (h : l.getLast? = some a) :
    a ∈ l := by
  have h2 : a ∈ l.getLast? := by rw [h]; rfl
  obtain ⟨hne, heq⟩ := List.mem_getLast?_eq_getLast h2
  rw [heq]
  exact List.getLast_mem hne

/-- Claim C4 (amended): the claim as frozen is refuted by
`c4_urgent_agree_not_noop`.  What holds instead: when the fetched snapshot
agrees with the store on every urgent flag (each snapshot entry having a
same-named store record), the urgent handler leaves every store record
unchanged, but the urgent callback IS invoked once, carrying the store record
matched by the LAST snapshot entry; an empty snapshot is undefined
behaviour. -/
theorem c4_urgent_agree_fires_callback
    (store : List i3workspace) (rs : List i3ipcWorkspaceReply)
    (r' : i3ipcWorkspaceReply) (hlast : rs.getLast? = some r')
    (hagree : ∀ r ∈ rs,
      (wfindIdx r.name store).map (fun q => q.2.urgent) = some r.urgent) :
    ∃ i w, wfindIdx r'.name store = some (i, w) ∧
      on_urgent_workspace store rs = some (store, [(EvKind.urgent, w)]) := by
  obtain ⟨i, w, hfind, hscan⟩ := urgentScan_all_agree store rs r' hlast hagree
  refine ⟨i, w, hfind, ?_⟩
  unfold on_urgent_workspace
  rw [hscan]
  simp only [Option.map_some']
  have hwu : w.urgent = r'.urgent := by
    have h2 := hagree r' (mem_of_getLast?_eq hlast)
    rw [hfind] at h2
    simpa using h2
  have hrec : ({ w with urgent := r'.urgent } : i3workspace) = w := by
    rw [← hwu]
  have hstore :
      modifyIdx (fun x => { x with urgent := r'.urgent }) i store = store := by
    apply modifyIdx_findWithIdx (fun u => workspace_name_cmp u.name r'.name == 0)
      (fun x => { x with urgent := r'.urgent }) store i w
    · simpa [wfindIdx] using hfind
    · exact hrec
  rw [hstore, hrec]

/-- Witness for `c4_urgent_agree_fires_callback`: a store and snapshot that
agree on the single workspace `"1"`. -/
theorem c4_urgent_agree_fires_callback_w :
    ∃ i w,
      wfindIdx (str "1") [⟨1, str "1", false, true, str "eDP1"⟩] = some (i, w) ∧
      on_urgent_workspace [⟨1, str "1", false, true, str "eDP1"⟩]
          [⟨1, str "1", false, true, str "eDP1"⟩] =
        some ([⟨1, str "1", false, true, str "eDP1"⟩], [(EvKind.urgent, w)]) :=
  c4_urgent_agree_fires_callback
    [⟨1, str "1", false, true, str "eDP1"⟩]
    [⟨1, str "1", false, true, str "eDP1"⟩]
    ⟨1, str "1", false, true, str "eDP1"⟩ (by decide) (by decide)

/-- Claim C4 counterexample: with a store/snapshot that agree on the urgent
flag of the single workspace `"1"`, the handler still invokes the urgent
callback, so the run is not silent. -/
theorem c4_urgent_agree_not_noop :
    on_urgent_workspace [⟨1, str "1", false, true, str "eDP1"⟩]
        [⟨1, str "1", false, true, str "eDP1"⟩] =
      some ([⟨1, str "1", false, true, str "eDP1"⟩],
        [(EvKind.urgent, ⟨1, str "1", false, true, str "eDP1"⟩)]) ∧
    [(EvKind.urgent, (⟨1, str "1", false, true, str "eDP1"⟩ : i3workspace))] ≠
      ([] : List Ev) := by
  decide

/-- Claim C5 (amended): the claim as frozen is refuted by
`c5_init_no_new_not_noop`.  What holds instead: when every snapshot entry's
name is already present in the store, `on_init_workspace` is NOT a no-op: it
builds a duplicate workspace from the LAST snapshot entry, inserts it into
the store and raises `created` with it; an empty snapshot is undefined
behaviour. -/
theorem c5_init_no_new_duplicates_last
    (store : List i3workspace) (rs : List i3ipcWorkspaceReply)
    (r' : i3ipcWorkspaceReply) (hlast : rs.getLast? = some r')
    (hall : ∀ r ∈ rs, (wfindIdx r.name store).isSome = true) :
    on_init_workspace store rs =
      some (insertSorted wLe (create_workspace r') store,
        [(EvKind.created, create_workspace r')]) := by
  unfold on_init_workspace
  rw [initScan_all_found store rs r' hlast hall]
  rfl

/-- Witness for `c5_init_no_new_duplicates_last`: store and snapshot both
hold exactly workspace `"1"`. -/
theorem c5_init_no_new_duplicates_last_w :
    on_init_workspace [⟨1, str "1", true, false, str "eDP1"⟩]
        [⟨1, str "1", true, false, str "eDP1"⟩] =
      some (insertSorted wLe (create_workspace ⟨1, str "1", true, false, str "eDP1"⟩)
          [⟨1, str "1", true, false, str "eDP1"⟩],
        [(EvKind.created, create_workspace ⟨1, str "1", true, false, str "eDP1"⟩)]) :=
  c5_init_no_new_duplicates_last
    [⟨1, str "1", true, false, str "eDP1"⟩]
    [⟨1, str "1", true, false, str "eDP1"⟩]
    ⟨1, str "1", true, false, str "eDP1"⟩ (by decide) (by decide)

/-- Claim C5 counterexample: snapshot `["1"]` against store `["1"]` has no
new name, yet the handler inserts a duplicate `"1"` record and raises
`created`. -/
theorem c5_init_no_new_not_noop :
    on_init_workspace [⟨1, str "1", true, false, str "eDP1"⟩]
        [⟨1, str "1", true, false, str "eDP1"⟩] =
      some ([⟨1, str "1", true, false, str "eDP1"⟩, ⟨1, str "1", true, false, str "eDP1"⟩],
        [(EvKind.created, ⟨1, str "1", true, false, str "eDP1"⟩)]) ∧
    ([⟨1, str "1", true, false, str "eDP1"⟩, ⟨1, str "1", true, false, str "eDP1"⟩] :
        List i3workspace) ≠
      [⟨1, str "1", true, false, str "eDP1"⟩] := by
  decide

/-- Claim C6 (amended): the first half of the claim holds: the empty handler
removes the first store entry whose name is absent (no compare-to-zero hit)
from the snapshot and raises `destroyed` with it.  The no-op half is refuted
by `c6_empty_all_present_not_noop`; instead, when every store entry's name is
present in the snapshot, the LAST store entry is removed and `destroyed`
fires with it (an empty store is undefined behaviour). -/
theorem c6_empty_removes_first_absent_else_last (rs : List i3ipcWorkspaceReply) :
    (∀ (pre : List i3workspace) (w : i3workspace) (post : List i3workspace),
      (∀ u ∈ pre, (rfindIdx u.name rs).isSome = true) →
      (rfindIdx w.name rs).isSome = false →
      on_empty_workspace (pre ++ w :: post) rs =
        some (pre ++ post, [(EvKind.destroyed, w)])) ∧
    (∀ (pre : List i3workspace) (w : i3workspace),
      (∀ u ∈ pre ++ [w], (rfindIdx u.name rs).isSome = true) →
      on_empty_workspace (pre ++ [w]) rs = some (pre, [(EvKind.destroyed, w)])) := by
  constructor
  · intro pre w post hall habs
    unfold on_empty_workspace
    rw [emptyScan_first_absent rs pre w post hall habs]
    rfl
  · intro pre w hall
    unfold on_empty_workspace
    rw [emptyScan_all_present rs pre w hall]
    rfl

/-- Witness for `c6_empty_removes_first_absent_else_last`: store `["2"]`
against snapshot `["1"]` removes `"2"` and raises `destroyed` with it. -/
theorem c6_empty_removes_first_absent_else_last_w :
    on_empty_workspace [⟨2, str "2", false, false, str "eDP1"⟩]
        [⟨1, str "1", false, false, str "eDP1"⟩] =
      some ([], [(EvKind.destroyed, ⟨2, str "2", false, false, str "eDP1"⟩)]) :=
  (c6_empty_removes_first_absent_else_last
      [⟨1, str "1", false, false, str "eDP1"⟩]).1
    [] ⟨2, str "2", false, false, str "eDP1"⟩ [] (by decide) (by decide)

/-- Claim C6 counterexample: with store `["1"]` and snapshot `["1"]` every
store name is present, yet the handler removes `"1"` and raises `destroyed`
instead of being a no-op. -/
theorem c6_empty_all_present_not_noop :
    on_empty_workspace [⟨1, str "1", true, false, str "eDP1"⟩]
        [⟨1, str "1", true, false, str "eDP1"⟩] =
      some ([], [(EvKind.destroyed, ⟨1, str "1", true, false, str "eDP1"⟩)]) ∧
    [(EvKind.destroyed, (⟨1, str "1", true, false, str "eDP1"⟩ : i3workspace))] ≠
      ([] : List Ev) := by
  decide

/-- Claim C8 (confirmed): when the current name has a store record, the focus
handler first — if the previous name has a store record — clears that
record's focused flag and raises `blurred` with the cleared record, then sets
the current record's focused flag and raises `focused` with it, `blurred`
strictly before `focused`; an absent previous name only skips the blur step
and the handler still succeeds. -/
theorem c8_focus_reconciliation
    (store : List i3workspace) (old cur : List Nat)
    (j : Nat) (wc : i3workspace)
    (hcur : wfindIdx cur store = some (j, wc)) :
    (wfindIdx old store = none →
      on_focus_workspace store old cur =
        some (modifyIdx (fun x => { x with focused := true }) j store,
          [(EvKind.focused, { wc with focused := true })])) ∧
    (∀ (i : Nat) (wb : i3workspace), wfindIdx old store = some (i, wb) →
      on_focus_workspace store old cur =
        some (modifyIdx (fun x => { x with focused := true }) j
            (modifyIdx (fun x => { x with focused := false }) i store),
          [(EvKind.blurred, { wb with focused := false }),
           (EvKind.focused, { wc with focused := true })])) := by
  constructor
  · intro hold
    simp only [on_focus_workspace, hold, hcur, List.nil_append]
  · intro i wb hold
    have hmod : wfindIdx cur (modifyIdx (fun x => { x with focused := false }) i store) =
        some (j, if j = i then { wc with focused := false } else wc) := by
      have h := findWithIdx_modifyIdx
        (fun w => workspace_name_cmp w.name cur == 0)
        (fun x => { x with focused := false }) (fun x => rfl) store i
      simp only [wfindIdx] at hcur ⊢
      rw [h, hcur]
      rfl
    simp only [on_focus_workspace, hold, hmod]
    by_cases hji : j = i
    · simp [hji]
    · simp [hji]

/-- Witness for `c8_focus_reconciliation`: store `["1" focused, "2"]`,
previous `"1"`, current `"2"`. -/
theorem c8_focus_reconciliation_w :
    on_focus_workspace
        [⟨1, str "1", true, false, str "eDP1"⟩, ⟨2, str "2", false, false, str "eDP1"⟩]
        (str "1") (str "2") =
      some ([⟨1, str "1", false, false, str "eDP1"⟩, ⟨2, str "2", true, false, str "eDP1"⟩],
        [(EvKind.blurred, ⟨1, str "1", false, false, str "eDP1"⟩),
         (EvKind.focused, ⟨2, str "2", true, false, str "eDP1"⟩)]) :=
  (c8_focus_reconciliation
      [⟨1, str "1", true, false, str "eDP1"⟩, ⟨2, str "2", false, false, str "eDP1"⟩]
      (str "1") (str "2") 1 ⟨2, str "2", false, false, str "eDP1"⟩ (by decide)).2
    0 ⟨1, str "1", true, false, str "eDP1"⟩ (by decide)

/-- Claim C9 (amended): the claim as frozen is refuted by
`c9_move_second_mismatch_ignored`.  What holds instead: when the snapshot
scan reaches its FIRST output mismatch at entry `r`, matched against store
record `w` of the same name, the move handler fires exactly one `destroyed`
callback with `w` followed by exactly one `created` callback with the record
built from `r`, and the store entry then found by that name is the new record
carrying the snapshot's output. -/
theorem c9_move_first_mismatch
    (store : List i3workspace) (rs : List i3ipcWorkspaceReply)
    (r : i3ipcWorkspaceReply) (i : Nat) (w : i3workspace)
    (hscan : moveScan store rs = some (r, i, w))
    (hout : w.output ≠ r.output) (hname : w.name = r.name) :
    on_move_workspace store rs =
      some (insertSorted wLe (create_workspace r) (removeAt i store),
        [(EvKind.destroyed, w), (EvKind.created, create_workspace r)]) ∧
    ∃ k, wfindIdx r.name
        (insertSorted wLe (create_workspace r) (removeAt i store)) =
      some (k, create_workspace r) := by
  constructor
  · unfold on_move_workspace
    rw [hscan]
    rfl
  · exact findWithIdx_insertSorted_self (removeAt i store) (create_workspace r)

/-- Witness for `c9_move_first_mismatch`: the spec's own example, store
`"1"` on output `LVDS1`, snapshot `"1"` on output `HDMI1`. -/
theorem c9_move_first_mismatch_w :
    on_move_workspace [⟨1, str "1", false, false, str "LVDS1"⟩]
        [⟨1, str "1", false, false, str "HDMI1"⟩] =
      some ([⟨1, str "1", false, false, str "HDMI1"⟩],
        [(EvKind.destroyed, ⟨1, str "1", false, false, str "LVDS1"⟩),
         (EvKind.created, ⟨1, str "1", false, false, str "HDMI1"⟩)]) ∧
    ∃ k, wfindIdx (str "1") [⟨1, str "1", false, false, str "HDMI1"⟩] =
      some (k, ⟨1, str "1", false, false, str "HDMI1"⟩) :=
  c9_move_first_mismatch
    [⟨1, str "1", false, false, str "LVDS1"⟩]
    [⟨1, str "1", false, false, str "HDMI1"⟩]
    ⟨1, str "1", false, false, str "HDMI1"⟩ 0
    ⟨1, str "1", false, false, str "LVDS1"⟩ (by decide) (by decide) rfl

/-- Claim C9 counterexample: with store `{"2"(A),"1"(A)}` and snapshot
`{"1"(B),"2"(B)}` BOTH entries moved output, but only the first scanned
mismatch `"1"` is handled: no callback carries `"2"`, and the final entry
found for `"2"` still has output `A`, not the snapshot's `B` — refuting the
claim instantiated at the pair named `"2"`. -/
theorem c9_move_second_mismatch_ignored :
    on_move_workspace
        [⟨2, str "2", false, false, str "A"⟩, ⟨1, str "1", false, false, str "A"⟩]
        [⟨1, str "1", false, false, str "B"⟩, ⟨2, str "2", false, false, str "B"⟩] =
      some ([⟨2, str "2", false, false, str "A"⟩, ⟨1, str "1", false, false, str "B"⟩],
        [(EvKind.destroyed, ⟨1, str "1", false, false, str "A"⟩),
         (EvKind.created, ⟨1, str "1", false, false, str "B"⟩)]) ∧
    (∀ e ∈ [((EvKind.destroyed, ⟨1, str "1", false, false, str "A"⟩) : Ev),
            (EvKind.created, ⟨1, str "1", false, false, str "B"⟩)],
      e.2.name ≠ str "2") ∧
    wfindIdx (str "2")
        [⟨2, str "2", false, false, str "A"⟩, ⟨1, str "1", false, false, str "B"⟩] =
      some (0, ⟨2, str "2", false, false, str "A"⟩) ∧
    (⟨2, str "2", false, false, str "A"⟩ : i3workspace).output ≠ str "B" := by
  decide

/-- Claim C10 (amended): the claim as frozen is refuted by
`c10_remove_can_unsort`.  What holds instead: provided every workspace name
involved (in the initial snapshot and in every inserted record) classifies as
Named or as Numeric with parsed value below `2^31` — so the comparator's
`gint` truncation is exact — the store reached from initial sync by any
sequence of sorted inserts and node removals is non-decreasing under the
comparator, hence sorted at every observable point. -/
theorem c10_sorted_invariant_small
    (rs : List i3ipcWorkspaceReply) (ops : List StoreOp)
    (h1 : ∀ r ∈ rs, SmallN r.name)
    (h2 : ∀ op ∈ ops, opSmall op) :
    List.Chain' (fun a b => wLe a b = true)
      (ops.foldl applyOp (init_workspaces rs)) := by
  apply chain_fold_ops ops (init_workspaces rs) ?_ ?_ h2
  · exact chain'_msortF wLe wLe_flip (rs.map create_workspace).length
      (rs.map create_workspace) le_rfl
  · intro x hx
    have hx2 := mem_msortF wLe (rs.map create_workspace).length
      (rs.map create_workspace) x hx
    obtain ⟨r, hr, rfl⟩ := List.mem_map.mp hx2
    exact h1 r hr

/-- Witness for `c10_sorted_invariant_small`: empty initial snapshot, one
small-name insert followed by one removal. -/
theorem c10_sorted_invariant_small_w :
    List.Chain' (fun a b => wLe a b = true)
      ([StoreOp.ins ⟨1, str "1", false, false, str "eDP1"⟩,
        StoreOp.del 0].foldl applyOp (init_workspaces [])) :=
  c10_sorted_invariant_small []
    [StoreOp.ins ⟨1, str "1", false, false, str "eDP1"⟩, StoreOp.del 0]
    (by decide) (by decide)

/-- Claim C10 counterexample: with the huge numeric names `"2147483649"`,
`"0"`, `"2147483648"` the three sorted inserts build the chain-sorted store
`["2147483648","0","2147483649"]`, but removing the middle node exposes the
adjacent pair `("2147483648","2147483649")` whose comparison is `1 > 0`:
the observable store is no longer sorted (the `gint` truncation makes the
comparator non-transitive). -/
theorem c10_remove_can_unsort :
    ¬ List.Chain' (fun a b => wLe a b = true)
      ([StoreOp.ins ⟨0, str "2147483649", false, false, str "eDP1"⟩,
        StoreOp.ins ⟨0, str "0", false, false, str "eDP1"⟩,
        StoreOp.ins ⟨0, str "2147483648", false, false, str "eDP1"⟩,
        StoreOp.del 1].foldl applyOp (init_workspaces [])) := by
  intro h
  have hfold :
      ([StoreOp.ins ⟨0, str "2147483649", false, false, str "eDP1"⟩,
        StoreOp.ins ⟨0, str "0", false, false, str "eDP1"⟩,
        StoreOp.ins ⟨0, str "2147483648", false, false, str "eDP1"⟩,
        StoreOp.del 1].foldl applyOp (init_workspaces [])) =
      [⟨0, str "2147483648", false, false, str "eDP1"⟩,
       ⟨0, str "2147483649", false, false, str "eDP1"⟩] := by decide
  rw [hfold, List.chain'_pair] at h
  have hpair : wLe ⟨0, str "2147483648", false, false, str "eDP1"⟩
      ⟨0, str "2147483649", false, false, str "eDP1"⟩ = false := by decide
  rw [hpair] at h
  exact Bool.false_ne_true h
